import Mathlib

/-!
Verification of the OAuth1.0a signing core and token-response parsers of the
zaim-cli repository (src/helper.rs, src/oauth1a.rs, src/zaim_api.rs).

The Rust code is shallowly embedded: strings are Lean `String`s, bytes are
`Nat`s below 256, `HashMap<String, String>` is an association list with
insert-overwrite semantics (the only observable behaviour the code relies on
is key lookup and the sorted key set), and fallible parsing returns
`Except String`.  HTTP transport, randomness and the system clock are
external collaborators per the specification and are not modelled; the
parsing functions take the already-received response body.
-/

/-- UTF-8 encoding of a unicode scalar value, as a list of byte values.
Mirrors the byte encoding Rust `String` stores and that the
`percent-encoding` crate iterates over. -/
def utf8Bytes (c : Char) : List Nat :=
  let n := c.toNat
  if n < 128 then [n]
  else if n < 2048 then [192 + n / 64, 128 + n % 64]
  else if n < 65536 then [224 + n / 4096, 128 + n / 64 % 64, 128 + n % 64]
  else [240 + n / 262144, 128 + n / 4096 % 64, 128 + n / 64 % 64, 128 + n % 64]

/-- The UTF-8 bytes of a string. -/
def strBytes (s : String) : List Nat :=
  s.data.flatMap utf8Bytes

/-- Membership in the `FRAGMENT` set of helper.rs: the `CONTROLS` set of the
percent-encoding crate (C0 controls 0x00-0x1F and DEL 0x7F) extended with
`: / ? # [ ] @ ! $ & ' ( ) * + , ; = %` (codes written numerically). -/
def inFragment (b : Nat) : Bool :=
  decide (b < 32) || b == 127 ||
  b == 58 || b == 47 || b == 63 || b == 35 || b == 91 ||
  b == 93 || b == 64 || b == 33 || b == 36 || b == 38 ||
  b == 39 || b == 40 || b == 41 || b == 42 || b == 43 ||
  b == 44 || b == 59 || b == 61 || b == 37

/-- A byte is percent-escaped iff it is in the `FRAGMENT` set or is
non-ASCII: `utf8_percent_encode` always escapes non-ASCII bytes regardless
of the supplied set. -/
def shouldEncode (b : Nat) : Bool :=
  inFragment b || decide (128 ≤ b)

/-- Uppercase hexadecimal digit, as emitted by the percent-encoding crate. -/
def hexDigit (n : Nat) : Char :=
  if n < 10 then Char.ofNat (48 + n) else Char.ofNat (55 + n)

/-- Encoding of one byte: either the plain ASCII character or a `%XX`
triplet with uppercase hex. -/
def percentEncodeByte (b : Nat) : List Char :=
  if shouldEncode b then ['%', hexDigit (b / 16), hexDigit (b % 16)]
  else [Char.ofNat b]

/-- Byte-level percent encoding of a byte list. -/
def percentEncodeBytes (l : List Nat) : List Char :=
  l.flatMap percentEncodeByte

/-- `helper::percent_encode`: `utf8_percent_encode(string, FRAGMENT)`. -/
def percent_encode (s : String) : String :=
  ⟨percentEncodeBytes (strBytes s)⟩

/-- Association-list model of `HashMap::insert`: replace the value of an
existing key, otherwise append the new entry. -/
def insertKV : List (String × String) → String → String → List (String × String)
  | [], k, v => [(k, v)]
  | (k', v') :: rest, k, v =>
    if k' = k then (k, v) :: rest else (k', v') :: insertKV rest k v

/-- Association-list model of `HashMap::extend`: insert every entry of the
second map in order, later entries overwriting earlier ones. -/
def extendKV (m : List (String × String)) (n : List (String × String)) :
    List (String × String) :=
  n.foldl (fun acc p => insertKV acc p.1 p.2) m

/-- Association-list key lookup, the model of `HashMap::get`. -/
def lookupKV : List (String × String) → String → Option String
  | [], _ => none
  | (k', v) :: rest, k => if k' = k then some v else lookupKV rest k

/-- Lookup with default, modelling `params.get(k).unwrap()` at call sites
where the key is known to be present. -/
def lookupD (m : List (String × String)) (k : String) : String :=
  (lookupKV m k).getD ""

/-- Byte-lexicographic `≤` on byte lists, the order `Vec<&String>::sort`
uses on UTF-8 string data. -/
def lexLe : List Nat → List Nat → Bool
  | [], _ => true
  | _ :: _, [] => false
  | a :: l, b :: m => if a < b then true else if b < a then false else lexLe l m

/-- Insert a string into a byte-lexicographically sorted list. -/
def insertSorted (x : String) : List String → List String
  | [] => [x]
  | y :: ys => if lexLe (strBytes x) (strBytes y) then x :: y :: ys
               else y :: insertSorted x ys

/-- Ascending byte-lexicographic sort of the key list, the model of
`keys.sort()`. -/
def sortStrings : List String → List String
  | [] => []
  | x :: xs => insertSorted x (sortStrings xs)

/-- Rust `String::pop`: remove the last character. -/
def strPop (s : String) : String :=
  ⟨s.data.dropLast⟩

/-- `OAuth1::gen_signing_key`: `token` then `&`, then the token secret when
present. -/
def gen_signing_key (token : String) (token_secret : Option String) : String :=
  match token_secret with
  | some ts => token ++ "&" ++ ts
  | none => token ++ "&"

/-- The `key=value&` accumulation loop of `gen_signature_base_string`,
iterating over the sorted keys. -/
def paramsConcat (m : List (String × String)) : List String → String
  | [] => ""
  | k :: rest => k ++ "=" ++ lookupD m k ++ "&" ++ paramsConcat m rest

/-- The parameter map built at the top of `gen_signature_base_string`:
`request_params` extended first with `auth_params`, then with the optional
`queries` (later inserts overwrite). -/
def mergedParams (auth_params : List (String × String))
    (queries : Option (List (String × String))) : List (String × String) :=
  extendKV (extendKV [] auth_params) (match queries with | some q => q | none => [])

/-- `OAuth1::gen_signature_base_string`: method, percent-encoded URL and the
once-more percent-encoded sorted `key=value` join, separated by `&`. -/
def gen_signature_base_string (auth_params : List (String × String))
    (protocol : String) (url : String)
    (queries : Option (List (String × String))) : String :=
  let request_params := mergedParams auth_params queries
  let keys := sortStrings (request_params.map Prod.fst)
  let params_str := paramsConcat request_params keys
  let params_str := if params_str = "" then params_str else strPop params_str
  protocol ++ "&" ++ percent_encode url ++ "&" ++ percent_encode params_str

/-- Concatenation of a list of strings, the model of the `push_str`
accumulation loop in `_gen_auth_common`. -/
def strConcat : List String → String
  | [] => ""
  | s :: rest => s ++ strConcat rest

/-- The header-building step of `OAuth1::_gen_auth_common` (lines 155-166):
sort the parameter names, emit `OAuth ` followed by `name="value", ` per
parameter, then pop the trailing `", "`. -/
def gen_auth_header (params : List (String × String)) : String :=
  let keys := sortStrings (params.map Prod.fst)
  let auth := "OAuth " ++
    strConcat (keys.map (fun k => k ++ "=\"" ++ lookupD params k ++ "\", "))
  strPop (strPop auth)

/-- Left rotation of a 32-bit word held as a `Nat` below `2 ^ 32`. -/
def rotl (n w : Nat) : Nat :=
  ((w <<< n) ||| (w >>> (32 - n))) % 4294967296

/-- Big-endian byte decomposition of a natural number into `k` bytes. -/
def toBytesBE : Nat → Nat → List Nat
  | _, 0 => []
  | n, k + 1 => toBytesBE (n / 256) k ++ [n % 256]

/-- Group a byte list into big-endian 32-bit words, four bytes per word. -/
def toWordsBE : List Nat → List Nat
  | b0 :: b1 :: b2 :: b3 :: rest =>
    (((b0 * 256 + b1) * 256 + b2) * 256 + b3) :: toWordsBE rest
  | _ => []

/-- SHA-1 message-schedule extension, accumulating words most-recent-first:
each new word is `rotl 1 (w16 ^^^ w14 ^^^ w8 ^^^ w3)`. -/
def sha1ExpandRev (acc : List Nat) : Nat → List Nat
  | 0 => acc
  | k + 1 =>
    sha1ExpandRev
      (rotl 1 ((acc.getD 2 0) ^^^ (acc.getD 7 0) ^^^
               (acc.getD 13 0) ^^^ (acc.getD 15 0)) :: acc) k

/-- One SHA-1 compression round at round index `i`. -/
def sha1Round (st : Nat × Nat × Nat × Nat × Nat) (i w : Nat) :
    Nat × Nat × Nat × Nat × Nat :=
  let (a, b, c, d, e) := st
  let f :=
    if i < 20 then (b &&& c) ||| ((b ^^^ 4294967295) &&& d)
    else if i < 40 then b ^^^ c ^^^ d
    else if i < 60 then (b &&& c) ||| (b &&& d) ||| (c &&& d)
    else b ^^^ c ^^^ d
  let k :=
    if i < 20 then 1518500249
    else if i < 40 then 1859775393
    else if i < 60 then 2400959708
    else 3395469782
  let temp := (rotl 5 a + f + e + k + w) % 4294967296
  (temp, a, rotl 30 b, c, d)

/-- Run the 80 compression rounds over the expanded schedule. -/
def sha1Rounds (st : Nat × Nat × Nat × Nat × Nat) (i : Nat) :
    List Nat → Nat × Nat × Nat × Nat × Nat
  | [] => st
  | w :: ws => sha1Rounds (sha1Round st i w) (i + 1) ws

/-- Process one 64-byte block, adding the round output into the chaining
state modulo `2 ^ 32`. -/
def sha1Block (h : Nat × Nat × Nat × Nat × Nat) (block : List Nat) :
    Nat × Nat × Nat × Nat × Nat :=
  let ws := (sha1ExpandRev (toWordsBE block).reverse 64).reverse
  let (a, b, c, d, e) := sha1Rounds h 0 ws
  let (h0, h1, h2, h3, h4) := h
  ((h0 + a) % 4294967296, (h1 + b) % 4294967296, (h2 + c) % 4294967296,
   (h3 + d) % 4294967296, (h4 + e) % 4294967296)

/-- Fold the block function over `n` consecutive 64-byte blocks. -/
def sha1Chunks (h : Nat × Nat × Nat × Nat × Nat) (bytes : List Nat) :
    Nat → Nat × Nat × Nat × Nat × Nat
  | 0 => h
  | n + 1 => sha1Chunks (sha1Block h (bytes.take 64)) (bytes.drop 64) n

/-- SHA-1 of a byte list: Merkle-Damgard padding to a multiple of 64 bytes
(0x80, zeros, 64-bit big-endian bit length), then block compression from
the standard initial state, producing the 20-byte digest. -/
def sha1 (msg : List Nat) : List Nat :=
  let len := msg.length
  let padded := msg ++ 128 :: List.replicate ((64 - (len + 9) % 64) % 64) 0
    ++ toBytesBE (len * 8) 8
  let (h0, h1, h2, h3, h4) :=
    sha1Chunks (1732584193, 4023233417, 2562383102, 271733878, 3285377520)
      padded (padded.length / 64)
  toBytesBE h0 4 ++ toBytesBE h1 4 ++ toBytesBE h2 4 ++ toBytesBE h3 4 ++
    toBytesBE h4 4

/-- HMAC-SHA1 with 64-byte block size: hash over-long keys, zero-pad,
inner hash with the 0x36 pad, outer hash with the 0x5C pad. -/
def hmacSha1 (key msg : List Nat) : List Nat :=
  let k0 := if 64 < key.length then sha1 key else key
  let k := k0 ++ List.replicate (64 - k0.length) 0
  sha1 ((k.map (fun b => b ^^^ 92)) ++ sha1 ((k.map (fun b => b ^^^ 54)) ++ msg))

/-- Character of the standard base64 alphabet at index `n < 64`. -/
def b64Char (n : Nat) : Char :=
  if n < 26 then Char.ofNat (65 + n)
  else if n < 52 then Char.ofNat (97 + (n - 26))
  else if n < 62 then Char.ofNat (48 + (n - 52))
  else if n = 62 then '+'
  else '/'

/-- Standard base64 encoding with `=` padding (`BASE64_STANDARD`). -/
def base64Encode : List Nat → List Char
  | [] => []
  | [b0] => [b64Char (b0 / 4), b64Char (b0 % 4 * 16), '=', '=']
  | [b0, b1] => [b64Char (b0 / 4), b64Char (b0 % 4 * 16 + b1 / 16),
                 b64Char (b1 % 16 * 4), '=']
  | b0 :: b1 :: b2 :: rest =>
    b64Char (b0 / 4) :: b64Char (b0 % 4 * 16 + b1 / 16) ::
    b64Char (b1 % 16 * 4 + b2 / 64) :: b64Char (b2 % 64) :: base64Encode rest

/-- `OAuth1::gen_signature`: HMAC-SHA1 of the base string keyed by the
signing key, base64-encoded, then percent-encoded.  The Rust function
returns `Result` but `HmacSha1::new_from_slice` accepts keys of any length,
so the error branch is unreachable and the embedding is total. -/
def gen_signature (signature_base_string signing_key : String) : String :=
  percent_encode
    ⟨base64Encode (hmacSha1 (strBytes signing_key) (strBytes signature_base_string))⟩

/-- Rust `str::split` on a single-character pattern: splits at every
occurrence, keeping empty segments; the empty string yields one empty
segment. -/
def splitOnChar (c : Char) : List Char → List (List Char)
  | [] => [[]]
  | x :: xs =>
    if x = c then [] :: splitOnChar c xs
    else match splitOnChar c xs with
      | [] => [[x]]
      | seg :: segs => (x :: seg) :: segs

deriving instance DecidableEq for Except

/-- Whether an `Except` value is an error. -/
def isErr {ε α : Type} : Except ε α → Bool
  | .error _ => true
  | .ok _ => false

/-- `zaim_api::UnauthorizedRequestToken`. -/
structure UnauthorizedRequestToken where
  request_token : String
  request_token_secret : String
  callback_confirmed : Bool
deriving DecidableEq

/-- `zaim_api::AccessTokens`. -/
structure AccessTokens where
  access_token : String
  access_token_secret : String
deriving DecidableEq

/-- Loop state of `request_request_token`: the response being filled in and
the key-presence bit flags. -/
structure RTState where
  resp : UnauthorizedRequestToken
  flags : Nat
deriving DecidableEq

/-- One iteration of the `request_request_token` parsing loop on one
`&`-separated segment: split on `=`, require exactly two parts, then
dispatch on the key.  Unknown keys only print a warning. -/
def procRT (st : RTState) (token : List Char) : Except String RTState :=
  match splitOnChar '=' token with
  | [k, v] =>
    if k = "oauth_token".data then
      .ok { resp := { st.resp with request_token := ⟨v⟩ },
            flags := st.flags ||| 1 }
    else if k = "oauth_token_secret".data then
      .ok { resp := { st.resp with request_token_secret := ⟨v⟩ },
            flags := st.flags ||| 2 }
    else if k = "oauth_callback_confirmed".data then
      if v = "true".data then
        .ok { resp := { st.resp with callback_confirmed := true },
              flags := st.flags ||| 4 }
      else if v = "false".data then
        .ok { resp := { st.resp with callback_confirmed := false },
              flags := st.flags ||| 4 }
      else
        .error "Error: Unexpected value of \x27oauth_callback_confirmed\x27 key"
    else .ok st
  | _ => .error "Unexpected response format"

/-- The `for token in tokens` loop of `request_request_token`, returning at
the first error. -/
def runRT (st : RTState) : List (List Char) → Except String RTState
  | [] => .ok st
  | s :: rest =>
    match procRT st s with
    | .error e => .error e
    | .ok st' => runRT st' rest

/-- Response-parsing behaviour of `zaim_api::request_request_token` on a
received response body: split on `&`, process every segment, then require
all three key-presence flags. -/
def request_request_token (body : String) : Except String UnauthorizedRequestToken :=
  match runRT ⟨⟨"", "", false⟩, 0⟩ (splitOnChar '&' body.data) with
  | .error e => .error e
  | .ok st =>
    if st.flags = 7 then .ok st.resp
    else .error "response is not completed"

/-- Loop state of `request_access_token`. -/
structure ATState where
  resp : AccessTokens
  flags : Nat
deriving DecidableEq

/-- One iteration of the `request_access_token` parsing loop on one
segment. -/
def procAT (st : ATState) (token : List Char) : Except String ATState :=
  match splitOnChar '=' token with
  | [k, v] =>
    if k = "oauth_token".data then
      .ok { resp := { st.resp with access_token := ⟨v⟩ },
            flags := st.flags ||| 1 }
    else if k = "oauth_token_secret".data then
      .ok { resp := { st.resp with access_token_secret := ⟨v⟩ },
            flags := st.flags ||| 2 }
    else .ok st
  | _ => .error "Error: Unexpected response format"

/-- The parsing loop of `request_access_token`. -/
def runAT (st : ATState) : List (List Char) → Except String ATState
  | [] => .ok st
  | s :: rest =>
    match procAT st s with
    | .error e => .error e
    | .ok st' => runAT st' rest

/-- Response-parsing behaviour of `zaim_api::request_access_token` on a
received response body. -/
def request_access_token (body : String) : Except String AccessTokens :=
  match runAT ⟨⟨"", ""⟩, 0⟩ (splitOnChar '&' body.data) with
  | .error e => .error e
  | .ok st =>
    if st.flags = 3 then .ok st.resp
    else .error "response is not completed"

/-- The OAuth parameter map of the reference test
`test_oauth1_gen_signature_base_string`: the three base parameters plus
nonce, timestamp and the pre-percent-encoded callback. -/
def zaimTestParams : List (String × String) :=
  insertKV (insertKV (insertKV (insertKV (insertKV (insertKV []
    "oauth_consumer_key" "qazjrpypgj2dmk85rt2wdfgwidots6phmd8bn6qt")
    "oauth_signature_method" "HMAC-SHA1")
    "oauth_version" "1.0")
    "oauth_nonce" "85877103587931253546137854859006")
    "oauth_timestamp" "1718193989")
    "oauth_callback" (percent_encode "https://zaim.net/")

set_option maxRecDepth 100000 in
/-- C1: `gen_signature_base_string` merges the OAuth parameters with the
optional queries, sorts the keys byte-lexicographically, joins `key=value`
pairs with `&` using the stored values, percent-encodes the join once more,
and prefixes method and percent-encoded URL; on the reference inputs
(consumer key `qazjrpypgj2dmk85rt2wdfgwidots6phmd8bn6qt`, nonce
`85877103587931253546137854859006`, timestamp `1718193989`, callback
`https://zaim.net/` inserted pre-encoded, method POST, request-token URL)
it returns exactly the base string of the reference test. -/
theorem gen_signature_base_string_test_vector :
    gen_signature_base_string zaimTestParams "POST"
      "https://api.zaim.net/v2/auth/request" none =
    "POST&https%3A%2F%2Fapi.zaim.net%2Fv2%2Fauth%2Frequest&oauth_callback%3Dhttps%253A%252F%252Fzaim.net%252F%26oauth_consumer_key%3Dqazjrpypgj2dmk85rt2wdfgwidots6phmd8bn6qt%26oauth_nonce%3D85877103587931253546137854859006%26oauth_signature_method%3DHMAC-SHA1%26oauth_timestamp%3D1718193989%26oauth_version%3D1.0" := by
  decide

set_option maxRecDepth 100000 in
/-- C3: `gen_signature` computes HMAC-SHA1 of the base string under the
signing key, base64-encodes the 20-byte digest with padding, and
percent-encodes the result; signing the reference base string with key
`0pgz53iyp7cajbaqtyhnjj3cbqivog5iil7wybvh&` yields exactly
`RK8sOwCsye4tH0fTWiTCrPH8dJA%3D`. -/
theorem gen_signature_test_vector :
    gen_signature
      "POST&https%3A%2F%2Fapi.zaim.net%2Fv2%2Fauth%2Frequest&oauth_callback%3Dhttps%253A%252F%252Fzaim.net%252F%26oauth_consumer_key%3Dqazjrpypgj2dmk85rt2wdfgwidots6phmd8bn6qt%26oauth_nonce%3D85877103587931253546137854859006%26oauth_signature_method%3DHMAC-SHA1%26oauth_timestamp%3D1718193989%26oauth_version%3D1.0"
      "0pgz53iyp7cajbaqtyhnjj3cbqivog5iil7wybvh&" =
    "RK8sOwCsye4tH0fTWiTCrPH8dJA%3D" := by
  decide

/-- C4: `gen_signing_key t ts` is `t ++ "&" ++ ts` (empty secret when
absent), neither component re-encoded; on the reference consumer secret
with no token secret it returns the secret followed by `&`. -/
theorem gen_signing_key_spec :
    (∀ (t : String) (ts : Option String),
      gen_signing_key t ts = t ++ "&" ++ ts.getD "") ∧
    gen_signing_key "0pgz53iyp7cajbaqtyhnjj3cbqivog5iil7wybvh" none =
      "0pgz53iyp7cajbaqtyhnjj3cbqivog5iil7wybvh&" := by
  constructor
  · intro t ts
    cases ts with
    | none => simp [gen_signing_key]
    | some ts => rfl
  · rfl

/-- Witness for C4 at concrete inputs. -/
theorem gen_signing_key_spec_witness :
    gen_signing_key "a" (some "b") = "a&b" := by
  have h := gen_signing_key_spec.1 "a" (some "b")
  rw [h]; decide

/-- Looking up the key just inserted yields the inserted value. -/
theorem lookup_insertKV_self (m : List (String × String)) (k v : String) :
    lookupKV (insertKV m k v) k = some v := by
  induction m with
  | nil => simp [insertKV, lookupKV]
  | cons p t ih =>
    obtain ⟨a, b⟩ := p
    by_cases h : a = k
    · simp [insertKV, h, lookupKV]
    · simp [insertKV, h, lookupKV, ih]

/-- Inserting under a different key does not change a lookup. -/
theorem lookup_insertKV_ne (m : List (String × String)) (k k' v' : String)
    (h : k' ≠ k) : lookupKV (insertKV m k' v') k = lookupKV m k := by
  induction m with
  | nil => simp [insertKV, lookupKV, h]
  | cons p t ih =>
    obtain ⟨a, b⟩ := p
    simp only [insertKV]
    by_cases ha : a = k'
    · subst ha
      simp [lookupKV, h]
    · simp only [if_neg ha]
      simp [lookupKV, ih]

/-- Extending with a map that does not mention `k` does not change the
lookup of `k`. -/
theorem lookup_extendKV_notin (n m : List (String × String)) (k : String)
    (h : k ∉ n.map Prod.fst) :
    lookupKV (extendKV m n) k = lookupKV m k := by
  induction n generalizing m with
  | nil => rfl
  | cons p t ih =>
    obtain ⟨a, b⟩ := p
    simp only [List.map_cons, List.mem_cons] at h
    push_neg at h
    have step : extendKV m ((a, b) :: t) = extendKV (insertKV m a b) t := rfl
    rw [step, ih _ h.2, lookup_insertKV_ne _ _ _ _ (fun hc => h.1 hc.symm)]

/-- C6 counterexample: the later insertion DOES overwrite.  Extending the
OAuth parameter `a=1` with the query `a=2` leaves only `a=2` in the merged
map, and the signature base string contains only the query value — not both
colliding entries. -/
theorem extendKV_overwrites_counterexample :
    extendKV [("a", "1")] [("a", "2")] = [("a", "2")] ∧
    gen_signature_base_string [("a", "1")] "POST" "u" (some [("a", "2")]) =
      "POST&u&a%3D2" ∧
    gen_signature_base_string [("a", "1")] "POST" "u" (some [("a", "2")]) ≠
      "POST&u&a%3D1" := by
  refine ⟨by decide, by decide, by decide⟩

/-- C6 amended: when a parameter name occurs both in the OAuth parameter
set and in the caller-supplied queries, the later insertion (the query
entry) overwrites the earlier one, last-insert-wins: the merged map of
`gen_signature_base_string` carries the query's value for every key the
queries mention. -/
theorem queries_overwrite_auth_params
    (auth_params q : List (String × String)) (k v : String)
    (hnodup : (q.map Prod.fst).Nodup) (hq : lookupKV q k = some v) :
    lookupKV (mergedParams auth_params (some q)) k = some v := by
  show lookupKV (extendKV (extendKV [] auth_params) q) k = some v
  generalize extendKV [] auth_params = m
  induction q generalizing m with
  | nil => simp [lookupKV] at hq
  | cons p t ih =>
    obtain ⟨a, b⟩ := p
    have step : extendKV m ((a, b) :: t) = extendKV (insertKV m a b) t := rfl
    rw [step]
    simp only [List.map_cons, List.nodup_cons] at hnodup
    simp only [lookupKV] at hq
    by_cases ha : a = k
    · subst ha
      simp at hq
      rw [lookup_extendKV_notin _ _ _ hnodup.1, lookup_insertKV_self, hq]
    · rw [if_neg ha] at hq
      exact ih hnodup.2 hq _

/-- Witness for C6 amended at a concrete collision. -/
theorem queries_overwrite_auth_params_witness :
    lookupKV (mergedParams [("a", "1")] (some [("a", "2")])) "a" = some "2" :=
  queries_overwrite_auth_params [("a", "1")] [("a", "2")] "a" "2"
    (by decide) (by decide)

/-- The RFC 3986 unreserved byte set used by the specification: ASCII
letters, digits and `- _ . ~`. -/
def unreservedByte (n : Nat) : Bool :=
  (65 ≤ n && n ≤ 90) || (97 ≤ n && n ≤ 122) || (48 ≤ n && n ≤ 57) ||
  n == 45 || n == 95 || n == 46 || n == 126

/-- Every unicode scalar value is below 0x110000. -/
theorem char_toNat_lt (c : Char) : c.toNat < 1114112 := by
  rcases c.valid with h | h
  · exact Nat.lt_trans h (by norm_num)
  · exact h.2

/-- UTF-8 bytes are bytes. -/
theorem utf8Bytes_lt (c : Char) : ∀ b ∈ utf8Bytes c, b < 256 := by
  intro b hb
  have hc := char_toNat_lt c
  simp only [utf8Bytes] at hb
  split at hb <;> [skip; split at hb] <;> [skip; skip; split at hb] <;>
    simp_all <;> omega

/-- `Char.ofNat` on a valid scalar value evaluates back to it. -/
theorem char_toNat_ofNat (n : Nat) (h : n.isValidChar) :
    (Char.ofNat n).toNat = n := by
  simp [Char.ofNat, h, Char.ofNatAux, Char.toNat, Nat.toUInt32,
    UInt32.ofNatCore, UInt32.toNat, UInt32.ofNat]

/-- A non-escaped byte is ASCII. -/
theorem lt_128_of_not_shouldEncode {b : Nat} (h : shouldEncode b = false) :
    b < 128 := by
  simp [shouldEncode] at h
  omega

/-- Every character produced by the byte encoder is ASCII. -/
theorem percentEncodeByte_ascii {b : Nat} (hb : b < 256) :
    ∀ c ∈ percentEncodeByte b, c.toNat < 128 := by
  intro c hc
  simp only [percentEncodeByte] at hc
  split at hc
  · have h16 : ∀ m : Nat, m < 16 → (hexDigit m).toNat < 128 := by decide
    simp only [List.mem_cons, List.not_mem_nil, or_false] at hc
    rcases hc with rfl | rfl | rfl
    · decide
    · exact h16 _ (by omega)
    · exact h16 _ (by omega)
  · next h =>
    have hlt : b < 128 := lt_128_of_not_shouldEncode (by simpa using h)
    simp only [List.mem_singleton] at hc
    subst hc
    rw [char_toNat_ofNat b (Or.inl (by omega))]
    exact hlt

/-- Every character of a percent-encoded byte list is ASCII. -/
theorem percentEncodeBytes_ascii {l : List Nat} (hl : ∀ b ∈ l, b < 256) :
    ∀ c ∈ percentEncodeBytes l, c.toNat < 128 := by
  intro c hc
  simp only [percentEncodeBytes, List.mem_flatMap] at hc
  obtain ⟨b, hb, hcb⟩ := hc
  exact percentEncodeByte_ascii (hl b hb) c hcb

/-- The UTF-8 bytes of any string are bytes. -/
theorem strBytes_lt (s : String) : ∀ b ∈ strBytes s, b < 256 := by
  intro b hb
  simp only [strBytes, List.mem_flatMap] at hb
  obtain ⟨c, _, hbc⟩ := hb
  exact utf8Bytes_lt c b hbc

/-- The byte list of a string of ASCII characters is the character-code
list. -/
theorem strBytes_ascii {l : List Char} (h : ∀ c ∈ l, c.toNat < 128) :
    l.flatMap utf8Bytes = l.map Char.toNat := by
  induction l with
  | nil => rfl
  | cons c t ih =>
    simp only [List.mem_cons] at h
    have hc : utf8Bytes c = [c.toNat] := by
      simp [utf8Bytes, h c (Or.inl rfl)]
    simp only [List.flatMap_cons, hc, List.map_cons, List.cons_append,
      List.nil_append, ih (fun x hx => h x (Or.inr hx))]

/-- Encoding a byte list in which no byte is escaped reproduces the
characters of those bytes. -/
theorem percentEncodeBytes_allpass {l : List Nat}
    (h : ∀ b ∈ l, shouldEncode b = false) :
    percentEncodeBytes l = l.map Char.ofNat := by
  induction l with
  | nil => rfl
  | cons b t ih =>
    simp only [List.mem_cons] at h
    simp only [percentEncodeBytes, List.flatMap_cons, percentEncodeByte,
      h b (Or.inl rfl), Bool.false_eq_true, if_false, List.map_cons,
      List.cons_append, List.nil_append]
    exact congrArg _ (ih (fun x hx => h x (Or.inr hx)))

/-- A string none of whose UTF-8 bytes is escaped is left unchanged by
`percent_encode`. -/
theorem percent_encode_eq_self_of_allpass {s : String}
    (h : ∀ b ∈ strBytes s, shouldEncode b = false) :
    percent_encode s = s := by
  have hascii : ∀ c ∈ s.data, c.toNat < 128 := by
    intro c hc
    by_contra hge
    have h1 : (128 ≤ c.toNat) := by omega
    have hb : (192 + c.toNat / 64 ∈ utf8Bytes c) ∨
        (224 + c.toNat / 4096 ∈ utf8Bytes c) ∨
        (240 + c.toNat / 262144 ∈ utf8Bytes c) := by
      simp only [utf8Bytes]
      split
      · omega
      · split
        · simp
        · split
          · simp
          · simp
    have : ∃ b ∈ strBytes s, 128 ≤ b := by
      rcases hb with hb | hb | hb <;>
        exact ⟨_, by simp only [strBytes, List.mem_flatMap]; exact ⟨c, hc, hb⟩,
          by omega⟩
    obtain ⟨b, hbs, hb128⟩ := this
    have := h b hbs
    simp [shouldEncode] at this
    omega
  have hbytes : strBytes s = s.data.map Char.toNat := strBytes_ascii hascii
  have hpass : ∀ b ∈ s.data.map Char.toNat, shouldEncode b = false := by
    rw [← hbytes]; exact h
  show (⟨percentEncodeBytes (strBytes s)⟩ : String) = s
  rw [hbytes, percentEncodeBytes_allpass hpass, List.map_map]
  have : ∀ c ∈ s.data, (Char.ofNat ∘ Char.toNat) c = c := by
    intro c _
    exact Char.ofNat_toNat c
  rw [List.map_congr_left this]
  simp

/-- Encoding grows the character count by two per escaped byte. -/
theorem percentEncodeBytes_length (l : List Nat) :
    (percentEncodeBytes l).length =
      l.length + 2 * l.countP (fun b => shouldEncode b) := by
  induction l with
  | nil => rfl
  | cons b t ih =>
    simp only [percentEncodeBytes, List.flatMap_cons, List.length_append,
      List.countP_cons, List.length_cons]
    by_cases hb : shouldEncode b = true
    · simp only [percentEncodeByte, if_pos hb, hb, if_true, List.length_cons,
        List.length_nil]
      simp only [percentEncodeBytes] at ih
      omega
    · rw [Bool.not_eq_true] at hb
      simp only [percentEncodeByte, hb, Bool.false_eq_true, if_false,
        List.length_singleton]
      simp only [percentEncodeBytes] at ih
      omega

/-- C2 counterexample: the space character is not unreserved, yet
`percent_encode` passes it through unchanged instead of producing `%20`. -/
theorem percent_encode_space_counterexample :
    percent_encode " " = " " ∧ percent_encode " " ≠ "%20" := by
  decide

/-- C2 amended: an ASCII character passes through `percent_encode`
unchanged exactly when it is outside the escaped set; the escaped set
restricted to ASCII is precisely the C0 controls, DEL and the nineteen
characters `: / ? # [ ] @ ! $ & ' ( ) * + , ; = %`; `percent_encode` is the
identity on strings of unreserved characters; escaped bytes become
uppercase `%XX` triplets of their UTF-8 bytes. -/
theorem percent_encode_byte_classification :
    (∀ c : Char, c.toNat < 128 →
      (percent_encode ⟨[c]⟩ = ⟨[c]⟩ ↔ shouldEncode c.toNat = false)) ∧
    (∀ s : String, (∀ c ∈ s.data, unreservedByte c.toNat = true) →
      percent_encode s = s) ∧
    (∀ n : Nat, n < 128 → (shouldEncode n = true ↔
      (n < 32 ∨ n = 127 ∨ n ∈ ([58, 47, 63, 35, 91, 93, 64, 33, 36, 38, 39,
        40, 41, 42, 43, 44, 59, 61, 37] : List Nat)))) ∧
    percent_encode "/" = "%2F" ∧ percent_encode "é" = "%C3%A9" := by
  refine ⟨?_, ?_, by decide, by decide, by decide⟩
  · intro c hc
    have hb : strBytes ⟨[c]⟩ = [c.toNat] := by
      simp [strBytes, utf8Bytes, hc]
    constructor
    · intro h
      by_contra henc
      rw [Bool.not_eq_false] at henc
      have hpe : percent_encode ⟨[c]⟩ =
          ⟨['%', hexDigit (c.toNat / 16), hexDigit (c.toNat % 16)]⟩ := by
        show (⟨percentEncodeBytes (strBytes ⟨[c]⟩)⟩ : String) = _
        rw [hb]
        simp [percentEncodeBytes, percentEncodeByte, henc]
      rw [hpe] at h
      injection h with h'
      simp at h'
    · intro h
      show (⟨percentEncodeBytes (strBytes ⟨[c]⟩)⟩ : String) = _
      rw [hb]
      simp [percentEncodeBytes, percentEncodeByte, h, Char.ofNat_toNat]
  · intro s hs
    apply percent_encode_eq_self_of_allpass
    intro b hb
    simp only [strBytes, List.mem_flatMap] at hb
    obtain ⟨c, hc, hbc⟩ := hb
    have hu := hs c hc
    have hlt : c.toNat < 128 := by
      simp [unreservedByte] at hu
      omega
    have hx : utf8Bytes c = [c.toNat] := by simp [utf8Bytes, hlt]
    rw [hx] at hbc
    simp at hbc
    subst hbc
    have hfin : ∀ n : Nat, n < 128 → unreservedByte n = true →
        shouldEncode n = false := by decide
    exact hfin _ hlt hu

/-- Witness for C2 amended: an unreserved string is unchanged. -/
theorem percent_encode_byte_classification_witness :
    percent_encode "abc-_.~019XYZ" = "abc-_.~019XYZ" :=
  percent_encode_byte_classification.2.1 "abc-_.~019XYZ" (by decide)

/-- C9 counterexample: `%` encodes to `%25`, whose `%` is escaped again on
a second pass, so `percent_encode` is not idempotent. -/
theorem percent_encode_double_counterexample :
    percent_encode "%" = "%25" ∧
    percent_encode (percent_encode "%") = "%2525" ∧
    percent_encode (percent_encode "%") ≠ percent_encode "%" := by
  refine ⟨by decide, by decide, by decide⟩

/-- C9 amended: `percent_encode` is idempotent on a string exactly when it
already leaves that string unchanged — the first pass escapes every
reserved byte into a `%XX` triplet whose `%` a second pass escapes again,
so double application is the identity on the image only of strings it does
not alter. -/
theorem percent_encode_idempotent_iff (s : String) :
    percent_encode (percent_encode s) = percent_encode s ↔
      percent_encode s = s := by
  constructor
  · intro h
    have hasc : ∀ c ∈ (percent_encode s).data, c.toNat < 128 := by
      intro c hc
      exact percentEncodeBytes_ascii (strBytes_lt s) c hc
    have hbytes : strBytes (percent_encode s) =
        (percent_encode s).data.map Char.toNat := strBytes_ascii hasc
    have hcnt : (strBytes (percent_encode s)).countP
        (fun b => shouldEncode b) = 0 := by
      have hlen := percentEncodeBytes_length (strBytes (percent_encode s))
      have hdata : percentEncodeBytes (strBytes (percent_encode s)) =
          (percent_encode s).data := congrArg String.data h
      rw [hdata] at hlen
      have hlen2 : (strBytes (percent_encode s)).length =
          (percent_encode s).data.length := by rw [hbytes]; simp
      omega
    have hall := List.countP_eq_zero.mp hcnt
    have hallpass : ∀ b ∈ strBytes s, shouldEncode b = false := by
      intro b hb
      by_contra hbe
      rw [Bool.not_eq_false] at hbe
      have hpct : '%' ∈ (percent_encode s).data := by
        show '%' ∈ percentEncodeBytes (strBytes s)
        simp only [percentEncodeBytes, List.mem_flatMap]
        exact ⟨b, hb, by simp [percentEncodeByte, hbe]⟩
      have h37 : (37 : Nat) ∈ strBytes (percent_encode s) := by
        rw [hbytes]
        exact List.mem_map.mpr ⟨'%', hpct, rfl⟩
      have hcontra := hall 37 h37
      exact absurd (by decide : shouldEncode 37 = true) hcontra
    exact percent_encode_eq_self_of_allpass hallpass
  · intro h
    rw [h]
    exact h

/-- Witness for C9 amended on an unreserved string. -/
theorem percent_encode_idempotent_iff_witness :
    percent_encode (percent_encode "abc") = percent_encode "abc" :=
  (percent_encode_idempotent_iff "abc").mpr (by decide)

/-- Join a list of strings with a separator, used to state the header
format: entries separated by the separator with no trailing copy. -/
def sepJoin (sep : String) : List String → String
  | [] => ""
  | [x] => x
  | x :: y :: t => x ++ sep ++ sepJoin sep (y :: t)

/-- Inserting into a sorted list never produces the empty list. -/
theorem insertSorted_ne_nil (x : String) (l : List String) :
    insertSorted x l ≠ [] := by
  cases l with
  | nil => simp [insertSorted]
  | cons y ys =>
    simp only [insertSorted]
    split <;> simp

/-- Sorting a nonempty list yields a nonempty list. -/
theorem sortStrings_ne_nil (l : List String) (h : l ≠ []) :
    sortStrings l ≠ [] := by
  cases l with
  | nil => contradiction
  | cons x xs => exact insertSorted_ne_nil x (sortStrings xs)

/-- The concatenation of `entry ++ ", "` pieces over a nonempty list has at
least the two separator characters. -/
theorem strConcat_sep_length (es : List String) (h : es ≠ []) :
    2 ≤ (strConcat (es.map (fun e => e ++ ", "))).data.length := by
  cases es with
  | nil => contradiction
  | cons x t =>
    show 2 ≤ ((x ++ ", ") ++ strConcat (t.map (fun e => e ++ ", "))).data.length
    rw [String.data_append, String.data_append]
    simp [List.length_append]
    omega

/-- Dropping the last two characters of an append acts on the second part
when it has at least two characters. -/
theorem dropLast2_append (a b : List Char) (h : 2 ≤ b.length) :
    (a ++ b).dropLast.dropLast = a ++ b.dropLast.dropLast := by
  have h1 : b ≠ [] := by
    intro hb
    rw [hb] at h
    simp at h
  have h2 : b.dropLast ≠ [] := by
    apply List.ne_nil_of_length_pos
    rw [List.length_dropLast]
    omega
  rw [List.dropLast_append_of_ne_nil _ h1, List.dropLast_append_of_ne_nil _ h2]

/-- Dropping the final two characters of the `entry ++ ", "` concatenation
yields the separator-joined entries. -/
theorem strConcat_sep_trim (es : List String) (h : es ≠ []) :
    (strConcat (es.map (fun e => e ++ ", "))).data.dropLast.dropLast =
      (sepJoin ", " es).data := by
  induction es with
  | nil => contradiction
  | cons x t ih =>
    cases t with
    | nil =>
      show ((x ++ ", ") ++ strConcat []).data.dropLast.dropLast = x.data
      rw [String.data_append, String.data_append]
      show (x.data ++ [',', ' '] ++ []).dropLast.dropLast = x.data
      rw [List.append_nil,
        show x.data ++ [',', ' '] = (x.data ++ [',']) ++ [' '] by simp,
        List.dropLast_concat, List.dropLast_concat]
    | cons y t' =>
      have hlen := strConcat_sep_length (y :: t') (by simp)
      show ((x ++ ", ") ++ strConcat ((y :: t').map (fun e => e ++ ", "))).data.dropLast.dropLast =
        ((x ++ ", ") ++ sepJoin ", " (y :: t')).data
      rw [String.data_append, dropLast2_append _ _ hlen, ih (by simp)]
      simp [String.data_append]

/-- C5: for every nonempty parameter map the header-building step emits
`OAuth ` followed by one `name="value"` entry per parameter in ascending
byte-lexicographic name order, entries separated by `", "` with the
trailing separator removed and values inserted verbatim; on
`{b: "2", a: "1"}` it yields `OAuth a="1", b="2"`. -/
theorem gen_auth_header_format :
    (∀ params : List (String × String), params ≠ [] →
      gen_auth_header params = "OAuth " ++ sepJoin ", "
        ((sortStrings (params.map Prod.fst)).map
          (fun k => k ++ "=\"" ++ lookupD params k ++ "\""))) ∧
    gen_auth_header [("b", "2"), ("a", "1")] = "OAuth a=\"1\", b=\"2\"" := by
  constructor
  · intro params hp
    have hkeys : sortStrings (params.map Prod.fst) ≠ [] :=
      sortStrings_ne_nil _ (by simp [hp])
    have hsplit : ("\", " : String).data =
        ("\"" : String).data ++ (", " : String).data := rfl
    have hf : (fun k => k ++ "=\"" ++ lookupD params k ++ "\", ") =
        (fun e => e ++ ", ") ∘
          (fun k => k ++ "=\"" ++ lookupD params k ++ "\"") := by
      funext k
      apply String.ext
      simp [String.data_append, hsplit]
    apply String.ext
    show ("OAuth " ++ strConcat ((sortStrings (params.map Prod.fst)).map
      (fun k => k ++ "=\"" ++ lookupD params k ++ "\", "))).data.dropLast.dropLast = _
    rw [hf, ← List.map_map]
    have hc := strConcat_sep_length
      ((sortStrings (params.map Prod.fst)).map
        (fun k => k ++ "=\"" ++ lookupD params k ++ "\"")) (by simp [hkeys])
    rw [String.data_append, dropLast2_append _ _ hc,
      strConcat_sep_trim _ (by simp [hkeys])]
    rw [String.data_append]
  · decide

/-- Witness for C5 on the concrete two-entry map. -/
theorem gen_auth_header_format_witness :
    gen_auth_header [("b", "2"), ("a", "1")] = "OAuth " ++ sepJoin ", "
      ((sortStrings ([("b", "2"), ("a", "1")].map Prod.fst)).map
        (fun k => k ++ "=\"" ++ lookupD [("b", "2"), ("a", "1")] k ++ "\"")) :=
  gen_auth_header_format.1 [("b", "2"), ("a", "1")] (by decide)

/-- If some segment fails for every incoming state, the request-token
parsing loop fails. -/
theorem runRT_isErr_of_mem (segs : List (List Char)) (st : RTState)
    (s : List Char) (hmem : s ∈ segs)
    (herr : ∀ st' : RTState, isErr (procRT st' s) = true) :
    isErr (runRT st segs) = true := by
  induction segs generalizing st with
  | nil => simp at hmem
  | cons a t ih =>
    simp only [List.mem_cons] at hmem
    simp only [runRT]
    rcases hmem with rfl | hmem
    · have := herr st
      cases hp : procRT st s with
      | error e => simp [isErr]
      | ok st' => rw [hp] at this; simp [isErr] at this
    · cases hp : procRT st a with
      | error e => simp [isErr]
      | ok st' => exact ih st' hmem

/-- A failing parsing loop makes `request_request_token` fail. -/
theorem request_request_token_isErr (body : String)
    (h : isErr (runRT ⟨⟨"", "", false⟩, 0⟩ (splitOnChar '&' body.data)) = true) :
    isErr (request_request_token body) = true := by
  simp only [request_request_token]
  cases hp : runRT ⟨⟨"", "", false⟩, 0⟩ (splitOnChar '&' body.data) with
  | error e => simp [isErr]
  | ok st => rw [hp] at h; simp [isErr] at h

/-- C7: parsing `oauth_token=A&oauth_token_secret=B&oauth_callback_confirmed=v`
yields the filled-in token with `callback_confirmed` true for `v = true`
and false for `v = false`, and whenever any response carries an
`oauth_callback_confirmed` segment whose value is neither `true` nor
`false`, `request_request_token` returns an error. -/
theorem request_request_token_callback_confirmed :
    request_request_token
        "oauth_token=A&oauth_token_secret=B&oauth_callback_confirmed=true" =
      .ok ⟨"A", "B", true⟩ ∧
    request_request_token
        "oauth_token=A&oauth_token_secret=B&oauth_callback_confirmed=false" =
      .ok ⟨"A", "B", false⟩ ∧
    (∀ (body : String) (s w : List Char),
      s ∈ splitOnChar '&' body.data →
      splitOnChar '=' s = ["oauth_callback_confirmed".data, w] →
      w ≠ "true".data → w ≠ "false".data →
      isErr (request_request_token body) = true) := by
  refine ⟨by decide, by decide, ?_⟩
  intro body s w hmem hsplit hwt hwf
  apply request_request_token_isErr
  apply runRT_isErr_of_mem _ _ s hmem
  intro st'
  simp only [procRT, hsplit]
  have hwt' : w ≠ ['t', 'r', 'u', 'e'] := hwt
  have hwf' : w ≠ ['f', 'a', 'l', 's', 'e'] := hwf
  simp [isErr, hwt', hwf']

/-- Witness for C7 at a concrete malformed confirmation value. -/
theorem request_request_token_callback_confirmed_witness :
    isErr (request_request_token
      "oauth_token=A&oauth_token_secret=B&oauth_callback_confirmed=1") = true :=
  request_request_token_callback_confirmed.2.2
    "oauth_token=A&oauth_token_secret=B&oauth_callback_confirmed=1"
    "oauth_callback_confirmed=1".data "1".data
    (by decide) (by decide) (by decide) (by decide)

/-- Processing a well-formed segment whose key is not `oauth_token_secret`
succeeds and keeps the access-token flags in `{0, 1}`. -/
theorem procAT_ok (st : ATState) (s k v : List Char)
    (hs : splitOnChar '=' s = [k, v]) (hk : k ≠ "oauth_token_secret".data)
    (hf : st.flags = 0 ∨ st.flags = 1) :
    ∃ st' : ATState, procAT st s = .ok st' ∧
      (st'.flags = 0 ∨ st'.flags = 1) := by
  simp only [procAT, hs]
  by_cases h1 : k = "oauth_token".data
  · rw [if_pos h1]
    refine ⟨_, rfl, ?_⟩
    rcases hf with h | h <;> rw [h] <;> simp
  · rw [if_neg h1, if_neg hk]
    exact ⟨st, rfl, hf⟩

/-- The access-token loop over well-formed segments with no
`oauth_token_secret` key succeeds with flags still in `{0, 1}`. -/
theorem runAT_ok (segs : List (List Char)) (st : ATState)
    (H : ∀ s ∈ segs, ∃ k v, splitOnChar '=' s = [k, v] ∧
      k ≠ "oauth_token_secret".data)
    (hf : st.flags = 0 ∨ st.flags = 1) :
    ∃ st', runAT st segs = .ok st' ∧ (st'.flags = 0 ∨ st'.flags = 1) := by
  induction segs generalizing st with
  | nil => exact ⟨st, rfl, hf⟩
  | cons a t ih =>
    obtain ⟨k, v, hs, hk⟩ := H a (List.mem_cons_self a t)
    obtain ⟨st1, hp, hf1⟩ := procAT_ok st a k v hs hk hf
    obtain ⟨st2, hr, hf2⟩ :=
      ih st1 (fun s hs' => H s (List.mem_cons_of_mem a hs')) hf1
    exact ⟨st2, by simp only [runAT, hp, hr], hf2⟩

/-- Processing a well-formed segment whose key is not `oauth_token_secret`
and whose `oauth_callback_confirmed` value (if that is the key) is boolean
succeeds and keeps the request-token flags in `{0, 1, 4, 5}`. -/
theorem procRT_ok (st : RTState) (s k v : List Char)
    (hs : splitOnChar '=' s = [k, v]) (hk : k ≠ "oauth_token_secret".data)
    (hcb : k = "oauth_callback_confirmed".data →
      v = "true".data ∨ v = "false".data)
    (hf : st.flags = 0 ∨ st.flags = 1 ∨ st.flags = 4 ∨ st.flags = 5) :
    ∃ st', procRT st s = .ok st' ∧
      (st'.flags = 0 ∨ st'.flags = 1 ∨ st'.flags = 4 ∨ st'.flags = 5) := by
  simp only [procRT, hs]
  by_cases h1 : k = "oauth_token".data
  · rw [if_pos h1]
    refine ⟨_, rfl, ?_⟩
    rcases hf with h | h | h | h <;> rw [h] <;> simp
  · rw [if_neg h1, if_neg hk]
    by_cases h3 : k = "oauth_callback_confirmed".data
    · rw [if_pos h3]
      rcases hcb h3 with hv | hv
      · rw [if_pos hv]
        refine ⟨_, rfl, ?_⟩
        rcases hf with h | h | h | h <;> rw [h] <;> simp
      · have hvt : v ≠ "true".data := by rw [hv]; decide
        rw [if_neg hvt, if_pos hv]
        refine ⟨_, rfl, ?_⟩
        rcases hf with h | h | h | h <;> rw [h] <;> simp
    · rw [if_neg h3]
      exact ⟨st, rfl, hf⟩

/-- The request-token loop over well-formed segments with no
`oauth_token_secret` key and boolean callback values succeeds with flags
still in `{0, 1, 4, 5}`. -/
theorem runRT_ok (segs : List (List Char)) (st : RTState)
    (H : ∀ s ∈ segs, ∃ k v, splitOnChar '=' s = [k, v] ∧
      k ≠ "oauth_token_secret".data)
    (Hcb : ∀ s ∈ segs, ∀ w,
      splitOnChar '=' s = ["oauth_callback_confirmed".data, w] →
      w = "true".data ∨ w = "false".data)
    (hf : st.flags = 0 ∨ st.flags = 1 ∨ st.flags = 4 ∨ st.flags = 5) :
    ∃ st', runRT st segs = .ok st' ∧
      (st'.flags = 0 ∨ st'.flags = 1 ∨ st'.flags = 4 ∨ st'.flags = 5) := by
  induction segs generalizing st with
  | nil => exact ⟨st, rfl, hf⟩
  | cons a t ih =>
    obtain ⟨k, v, hs, hk⟩ := H a (List.mem_cons_self a t)
    have hcb : k = "oauth_callback_confirmed".data →
        v = "true".data ∨ v = "false".data := by
      intro h3
      exact Hcb a (List.mem_cons_self a t) v (by rw [← h3]; exact hs)
    obtain ⟨st1, hp, hf1⟩ := procRT_ok st a k v hs hk hcb hf
    obtain ⟨st2, hr, hf2⟩ :=
      ih st1 (fun s hs' => H s (List.mem_cons_of_mem a hs'))
        (fun s hs' => Hcb s (List.mem_cons_of_mem a hs')) hf1
    exact ⟨st2, by simp only [runRT, hp, hr], hf2⟩

/-- Processing a well-formed segment whose key is not `oauth_token_secret`
either fails or succeeds with flags still in `{0, 1, 4, 5}`. -/
theorem procRT_step (st : RTState) (s k v : List Char)
    (hs : splitOnChar '=' s = [k, v]) (hk : k ≠ "oauth_token_secret".data)
    (hf : st.flags = 0 ∨ st.flags = 1 ∨ st.flags = 4 ∨ st.flags = 5) :
    isErr (procRT st s) = true ∨ ∃ st', procRT st s = .ok st' ∧
      (st'.flags = 0 ∨ st'.flags = 1 ∨ st'.flags = 4 ∨ st'.flags = 5) := by
  by_cases h3 : k = "oauth_callback_confirmed".data
  · by_cases hv1 : v = "true".data
    · exact Or.inr (procRT_ok st s k v hs hk (fun _ => Or.inl hv1) hf)
    · by_cases hv2 : v = "false".data
      · exact Or.inr (procRT_ok st s k v hs hk (fun _ => Or.inr hv2) hf)
      · left
        have h1 : k ≠ "oauth_token".data := by rw [h3]; decide
        simp only [procRT, hs]
        rw [if_neg h1, if_neg hk, if_pos h3, if_neg hv1, if_neg hv2]
        rfl
  · exact Or.inr (procRT_ok st s k v hs hk (fun hc => absurd hc h3) hf)

/-- The request-token loop over well-formed segments with no
`oauth_token_secret` key either fails or succeeds with flags in
`{0, 1, 4, 5}`. -/
theorem runRT_step (segs : List (List Char)) (st : RTState)
    (H : ∀ s ∈ segs, ∃ k v, splitOnChar '=' s = [k, v] ∧
      k ≠ "oauth_token_secret".data)
    (hf : st.flags = 0 ∨ st.flags = 1 ∨ st.flags = 4 ∨ st.flags = 5) :
    isErr (runRT st segs) = true ∨ ∃ st', runRT st segs = .ok st' ∧
      (st'.flags = 0 ∨ st'.flags = 1 ∨ st'.flags = 4 ∨ st'.flags = 5) := by
  induction segs generalizing st with
  | nil => exact Or.inr ⟨st, rfl, hf⟩
  | cons a t ih =>
    obtain ⟨k, v, hs, hk⟩ := H a (List.mem_cons_self a t)
    rcases procRT_step st a k v hs hk hf with herr | ⟨st1, hp, hf1⟩
    · left
      simp only [runRT]
      cases hp : procRT st a with
      | error e => simp [isErr]
      | ok st1 => rw [hp] at herr; simp [isErr] at herr
    · rcases ih st1 (fun s hs' => H s (List.mem_cons_of_mem a hs')) hf1 with
        herr | ⟨st2, hr, hf2⟩
      · left
        simp only [runRT, hp]
        exact herr
      · exact Or.inr ⟨st2, by simp only [runRT, hp, hr], hf2⟩

/-- C8 counterexample: the well-formed body `oauth_token=A&oauth_callback_confirmed=zzz`
has no `oauth_token_secret` key, yet `request_request_token` reports the
unexpected-callback-value error, not the incomplete-response error. -/
theorem missing_token_secret_error_kind_counterexample :
    request_request_token "oauth_token=A&oauth_callback_confirmed=zzz" =
      .error "Error: Unexpected value of \x27oauth_callback_confirmed\x27 key" ∧
    request_request_token "oauth_token=A&oauth_callback_confirmed=zzz" ≠
      .error "response is not completed" := by
  refine ⟨by decide, by decide⟩

/-- C8 amended: on every well-formed body without the key
`oauth_token_secret`, `request_access_token` returns the
incomplete-response error, and `request_request_token` returns an error —
the incomplete-response error whenever every `oauth_callback_confirmed`
segment carries `true` or `false`. -/
theorem missing_token_secret_incomplete (body : String)
    (H : ∀ s ∈ splitOnChar '&' body.data, ∃ k v,
      splitOnChar '=' s = [k, v] ∧ k ≠ "oauth_token_secret".data) :
    request_access_token body = .error "response is not completed" ∧
    isErr (request_request_token body) = true ∧
    ((∀ s ∈ splitOnChar '&' body.data, ∀ w,
        splitOnChar '=' s = ["oauth_callback_confirmed".data, w] →
        w = "true".data ∨ w = "false".data) →
      request_request_token body = .error "response is not completed") := by
  refine ⟨?_, ?_, ?_⟩
  · obtain ⟨st, hr, hf⟩ := runAT_ok _ ⟨⟨"", ""⟩, 0⟩ H (Or.inl rfl)
    simp only [request_access_token, hr]
    rcases hf with h | h <;> rw [h] <;> simp
  · rcases runRT_step _ ⟨⟨"", "", false⟩, 0⟩ H (Or.inl rfl) with herr |
      ⟨st, hr, hf⟩
    · exact request_request_token_isErr body herr
    · simp only [request_request_token, hr]
      have hne : ¬ st.flags = 7 := by
        rcases hf with h | h | h | h <;> rw [h] <;> decide
      rw [if_neg hne]
      rfl
  · intro Hcb
    obtain ⟨st, hr, hf⟩ := runRT_ok _ ⟨⟨"", "", false⟩, 0⟩ H Hcb (Or.inl rfl)
    simp only [request_request_token, hr]
    have hne : ¬ st.flags = 7 := by
      rcases hf with h | h | h | h <;> rw [h] <;> decide
    rw [if_neg hne]

/-- Witness for C8 amended on the body `oauth_token=A`. -/
theorem missing_token_secret_incomplete_witness :
    request_access_token "oauth_token=A" =
      .error "response is not completed" ∧
    request_request_token "oauth_token=A" =
      .error "response is not completed" := by
  have he : splitOnChar '&' ("oauth_token=A" : String).data =
      ["oauth_token=A".data] := by decide
  have hsp : splitOnChar '=' ("oauth_token=A" : String).data =
      ["oauth_token".data, "A".data] := by decide
  have H : ∀ s ∈ splitOnChar '&' ("oauth_token=A" : String).data, ∃ k v,
      splitOnChar '=' s = [k, v] ∧ k ≠ "oauth_token_secret".data := by
    intro s hs
    rw [he] at hs
    simp at hs
    subst hs
    exact ⟨"oauth_token".data, "A".data, hsp, by decide⟩
  have h := missing_token_secret_incomplete "oauth_token=A" H
  refine ⟨h.1, h.2.2 ?_⟩
  intro s hs w hw
  rw [he] at hs
  simp at hs
  subst hs
  rw [hsp] at hw
  injection hw with h1 h2
  exact absurd h1 (by decide)

/-- A well-formed split has exactly two parts. -/
theorem split_two_of_length (a : List Char)
    (ha : (splitOnChar '=' a).length = 2) :
    ∃ k v, splitOnChar '=' a = [k, v] := by
  cases hsp : splitOnChar '=' a with
  | nil => rw [hsp] at ha; simp at ha
  | cons k t =>
    cases t with
    | nil => rw [hsp] at ha; simp at ha
    | cons v t' =>
      cases t' with
      | nil => exact ⟨k, v, rfl⟩
      | cons z t'' => rw [hsp] at ha; simp at ha

/-- Processing a malformed segment fails with the access-token format
error. -/
theorem procAT_fmt (st : ATState) (a : List Char)
    (ha : (splitOnChar '=' a).length ≠ 2) :
    procAT st a = .error "Error: Unexpected response format" := by
  simp only [procAT]
  cases hsp : splitOnChar '=' a with
  | nil => rfl
  | cons k t =>
    cases t with
    | nil => rfl
    | cons v t' =>
      cases t' with
      | nil => rw [hsp] at ha; simp at ha
      | cons z t'' => rfl

/-- Processing a well-formed segment never fails in the access-token
loop. -/
theorem procAT_any_ok (st : ATState) (a k v : List Char)
    (hs : splitOnChar '=' a = [k, v]) :
    ∃ st', procAT st a = .ok st' := by
  simp only [procAT, hs]
  by_cases h1 : k = "oauth_token".data
  · rw [if_pos h1]; exact ⟨_, rfl⟩
  · rw [if_neg h1]
    by_cases h2 : k = "oauth_token_secret".data
    · rw [if_pos h2]; exact ⟨_, rfl⟩
    · rw [if_neg h2]; exact ⟨st, rfl⟩

/-- A malformed segment anywhere in the list makes the access-token loop
fail with the format error. -/
theorem runAT_fmt (segs : List (List Char)) (st : ATState)
    (hbad : ∃ s ∈ segs, (splitOnChar '=' s).length ≠ 2) :
    runAT st segs = .error "Error: Unexpected response format" := by
  induction segs generalizing st with
  | nil => simp at hbad
  | cons a t ih =>
    by_cases ha : (splitOnChar '=' a).length = 2
    · obtain ⟨k, v, hs⟩ := split_two_of_length a ha
      obtain ⟨st', hp⟩ := procAT_any_ok st a k v hs
      have hbad' : ∃ s ∈ t, (splitOnChar '=' s).length ≠ 2 := by
        obtain ⟨s, hsmem, hlen⟩ := hbad
        rcases List.mem_cons.mp hsmem with rfl | hmem
        · exact absurd ha hlen
        · exact ⟨s, hmem, hlen⟩
      simp only [runAT, hp]
      exact ih st' hbad'
    · simp only [runAT, procAT_fmt st a ha]

/-- Processing a malformed segment fails with the request-token format
error. -/
theorem procRT_fmt (st : RTState) (a : List Char)
    (ha : (splitOnChar '=' a).length ≠ 2) :
    procRT st a = .error "Unexpected response format" := by
  simp only [procRT]
  cases hsp : splitOnChar '=' a with
  | nil => rfl
  | cons k t =>
    cases t with
    | nil => rfl
    | cons v t' =>
      cases t' with
      | nil => rw [hsp] at ha; simp at ha
      | cons z t'' => rfl

/-- Processing a well-formed segment with boolean callback value never
fails in the request-token loop. -/
theorem procRT_any_ok (st : RTState) (a k v : List Char)
    (hs : splitOnChar '=' a = [k, v])
    (hcb : k = "oauth_callback_confirmed".data →
      v = "true".data ∨ v = "false".data) :
    ∃ st', procRT st a = .ok st' := by
  simp only [procRT, hs]
  by_cases h1 : k = "oauth_token".data
  · rw [if_pos h1]; exact ⟨_, rfl⟩
  · rw [if_neg h1]
    by_cases h2 : k = "oauth_token_secret".data
    · rw [if_pos h2]; exact ⟨_, rfl⟩
    · rw [if_neg h2]
      by_cases h3 : k = "oauth_callback_confirmed".data
      · rw [if_pos h3]
        rcases hcb h3 with hv | hv
        · rw [if_pos hv]; exact ⟨_, rfl⟩
        · have hvt : v ≠ "true".data := by rw [hv]; decide
          rw [if_neg hvt, if_pos hv]; exact ⟨_, rfl⟩
      · rw [if_neg h3]; exact ⟨st, rfl⟩

/-- A malformed segment anywhere in the list makes the request-token loop
fail with the format error, provided every well-formed
`oauth_callback_confirmed` segment carries a boolean. -/
theorem runRT_fmt (segs : List (List Char)) (st : RTState)
    (Hcb : ∀ s ∈ segs, ∀ w,
      splitOnChar '=' s = ["oauth_callback_confirmed".data, w] →
      w = "true".data ∨ w = "false".data)
    (hbad : ∃ s ∈ segs, (splitOnChar '=' s).length ≠ 2) :
    runRT st segs = .error "Unexpected response format" := by
  induction segs generalizing st with
  | nil => simp at hbad
  | cons a t ih =>
    by_cases ha : (splitOnChar '=' a).length = 2
    · obtain ⟨k, v, hs⟩ := split_two_of_length a ha
      have hcb : k = "oauth_callback_confirmed".data →
          v = "true".data ∨ v = "false".data := by
        intro h3
        exact Hcb a (List.mem_cons_self a t) v (by rw [← h3]; exact hs)
      obtain ⟨st', hp⟩ := procRT_any_ok st a k v hs hcb
      have hbad' : ∃ s ∈ t, (splitOnChar '=' s).length ≠ 2 := by
        obtain ⟨s, hsmem, hlen⟩ := hbad
        rcases List.mem_cons.mp hsmem with rfl | hmem
        · exact absurd ha hlen
        · exact ⟨s, hmem, hlen⟩
      simp only [runRT, hp]
      exact ih st' (fun s hs' => Hcb s (List.mem_cons_of_mem a hs')) hbad'
    · simp only [runRT, procRT_fmt st a ha]

/-- C10 counterexample: the body
`oauth_token=A&oauth_token_secret=B&oauth_callback_confirmed=xyz&foo`
contains the zero-`=` segment `foo` and all required keys, yet
`request_request_token` reports the unexpected-callback-value error
instead of the unexpected-response-format error. -/
theorem malformed_segment_error_counterexample :
    "foo".data ∈ splitOnChar '&'
      ("oauth_token=A&oauth_token_secret=B&oauth_callback_confirmed=xyz&foo" : String).data ∧
    (splitOnChar '=' "foo".data).length = 1 ∧
    request_request_token
      "oauth_token=A&oauth_token_secret=B&oauth_callback_confirmed=xyz&foo" =
      .error "Error: Unexpected value of \x27oauth_callback_confirmed\x27 key" ∧
    request_request_token
      "oauth_token=A&oauth_token_secret=B&oauth_callback_confirmed=xyz&foo" ≠
      .error "Unexpected response format" := by
  refine ⟨by decide, by decide, by decide, by decide⟩

/-- C10 amended: on every body containing a segment that does not split
into exactly two `=`-separated parts, `request_access_token` returns its
unexpected-response-format error, and `request_request_token` returns its
unexpected-response-format error provided every well-formed
`oauth_callback_confirmed` segment carries `true` or `false` (otherwise
the unexpected-value error preempts it). -/
theorem malformed_segment_format_error (body : String)
    (hbad : ∃ s ∈ splitOnChar '&' body.data,
      (splitOnChar '=' s).length ≠ 2) :
    request_access_token body = .error "Error: Unexpected response format" ∧
    ((∀ s ∈ splitOnChar '&' body.data, ∀ w,
        splitOnChar '=' s = ["oauth_callback_confirmed".data, w] →
        w = "true".data ∨ w = "false".data) →
      request_request_token body = .error "Unexpected response format") := by
  constructor
  · simp only [request_access_token, runAT_fmt _ _ hbad]
  · intro Hcb
    simp only [request_request_token, runRT_fmt _ _ Hcb hbad]

/-- Witness for C10 amended on the single-segment body `x`. -/
theorem malformed_segment_format_error_witness :
    request_access_token "x" = .error "Error: Unexpected response format" ∧
    request_request_token "x" = .error "Unexpected response format" := by
  have he : splitOnChar '&' ("x" : String).data = ["x".data] := by decide
  have h := malformed_segment_format_error "x"
    ⟨"x".data, by decide, by decide⟩
  refine ⟨h.1, h.2 ?_⟩
  intro s hs w hw
  rw [he] at hs
  simp at hs
  subst hs
  rw [show splitOnChar '=' ("x" : String).data = ["x".data] from by decide]
    at hw
  injection hw with h1 h2
  exact absurd h1 (by decide)
